import Mathlib

/-!
Verification of `generate_calendar.py`: a scraper that extracts event
records (title, date string, venue, detail URL) from a listing page and
builds an iCalendar file.

The embedding models:
 * `DATE_RE = ^[A-Z][a-z]{2} \d{1,2}, \d{4}, \d{1,2}:\d{2} [AP]M$`
   as `matchesDateRe` via a structural decomposition `dateComponents`;
 * `parse_naive_local` (Python `datetime.strptime` with format
   `"%b %d, %Y, %I:%M %p"`) as `parse_naive_local`;
 * `fetch_event_blocks`'s anchor selection and sibling text walk;
 * `build_calendar`'s skip-on-parse-failure loop (warnings are modelled
   as the `(date_str, title)` pair each warning message reports);
 * `main`'s result code and written output.

Character classes `\d`, `[A-Z]`, `[a-z]`, `\s` are modelled over ASCII.
Strings are handled as their character lists; visible sibling texts are
modelled as the stripped text value the Python loop computes for each
sibling node.
-/

/-- Numeric value of an ASCII digit character (used where Python applies
`int` to matched digit groups). -/
def dval (c : Char) : Nat := c.toNat - 48

/-- ASCII digit class `\d` (codes 48-57, i.e. `'0'`-`'9'`). -/
def isDigCh (c : Char) : Bool := decide (48 ≤ c.toNat ∧ c.toNat ≤ 57)

/-- ASCII upper-case class `[A-Z]`. -/
def isUpCh (c : Char) : Bool := decide ('A' ≤ c ∧ c ≤ 'Z')

/-- ASCII lower-case class `[a-z]`. -/
def isLoCh (c : Char) : Bool := decide ('a' ≤ c ∧ c ≤ 'z')

/-- ASCII whitespace class `\s` (space, tab, newline, vertical tab, form
feed, carriage return). -/
def isSpaceCh (c : Char) : Bool :=
  decide (c.toNat = 32 ∨ c.toNat = 9 ∨ c.toNat = 10 ∨ c.toNat = 11 ∨
          c.toNat = 12 ∨ c.toNat = 13)

/-- The character fields of a string matching `DATE_RE`:
month letters, day digits (one or two), year digits, hour digits (one or
two), minute digits, and the AM/PM letter. -/
structure DComp where
  m1 : Char
  m2 : Char
  m3 : Char
  dds : List Char
  y1 : Char
  y2 : Char
  y3 : Char
  y4 : Char
  hds : List Char
  n1 : Char
  n2 : Char
  ap : Char
deriving DecidableEq, Repr

/-- Match one character of a class. -/
def reCl (p : Char → Bool) : List Char → Option (Char × List Char)
  | c :: rest => if p c then some (c, rest) else none
  | [] => none

/-- Match one literal character. -/
def reCh (ch : Char) : List Char → Option (List Char)
  | c :: rest => if c = ch then some rest else none
  | [] => none

/-- Match `\d{1,2}` greedily.  In `DATE_RE` every `\d{1,2}` group is
followed by a non-digit literal, so the greedy commit agrees with the
backtracking regex semantics. -/
def reDigits12 : List Char → Option (List Char × List Char)
  | c1 :: c2 :: rest =>
      if isDigCh c1 then
        if isDigCh c2 then some ([c1, c2], rest) else some ([c1], c2 :: rest)
      else none
  | [c1] => if isDigCh c1 then some ([c1], []) else none
  | [] => none

/-- The class `[AP]`. -/
def apCl (c : Char) : Bool := decide (c = 'A' ∨ c = 'P')

/-- Tail of `DATE_RE` after the minute digits: ` [AP]M$`. -/
def reAfterMinutes (m1 m2 m3 : Char) (dds : List Char) (y1 y2 y3 y4 : Char)
    (hds : List Char) (n1 n2 : Char) (l : List Char) : Option DComp :=
  match reCh ' ' l with
  | none => none
  | some l18 =>
  match reCl apCl l18 with
  | none => none
  | some (ap, l19) =>
  match reCh 'M' l19 with
  | none => none
  | some l20 =>
  if l20 = [] then some ⟨m1, m2, m3, dds, y1, y2, y3, y4, hds, n1, n2, ap⟩
  else none

/-- Tail of `DATE_RE` after the hour digits: `:\d{2}` then the rest. -/
def reAfterHour (m1 m2 m3 : Char) (dds : List Char) (y1 y2 y3 y4 : Char)
    (hds : List Char) (l : List Char) : Option DComp :=
  match reCh ':' l with
  | none => none
  | some l15 =>
  match reCl isDigCh l15 with
  | none => none
  | some (n1, l16) =>
  match reCl isDigCh l16 with
  | none => none
  | some (n2, l17) => reAfterMinutes m1 m2 m3 dds y1 y2 y3 y4 hds n1 n2 l17

/-- Tail of `DATE_RE` after the year digits: `, \d{1,2}` then the rest. -/
def reAfterYear (m1 m2 m3 : Char) (dds : List Char) (y1 y2 y3 y4 : Char)
    (l : List Char) : Option DComp :=
  match reCh ',' l with
  | none => none
  | some l12 =>
  match reCh ' ' l12 with
  | none => none
  | some l13 =>
  match reDigits12 l13 with
  | none => none
  | some (hds, l14) => reAfterHour m1 m2 m3 dds y1 y2 y3 y4 hds l14

/-- Tail of `DATE_RE` after the day digits: `, \d{4}` then the rest. -/
def reAfterDay (m1 m2 m3 : Char) (dds : List Char) (l : List Char) :
    Option DComp :=
  match reCh ',' l with
  | none => none
  | some l6 =>
  match reCh ' ' l6 with
  | none => none
  | some l7 =>
  match reCl isDigCh l7 with
  | none => none
  | some (y1, l8) =>
  match reCl isDigCh l8 with
  | none => none
  | some (y2, l9) =>
  match reCl isDigCh l9 with
  | none => none
  | some (y3, l10) =>
  match reCl isDigCh l10 with
  | none => none
  | some (y4, l11) => reAfterYear m1 m2 m3 dds y1 y2 y3 y4 l11

/-- Tail of `DATE_RE` after the month letters: ` \d{1,2}` then the rest. -/
def reAfterMonth (m1 m2 m3 : Char) (l : List Char) : Option DComp :=
  match reCh ' ' l with
  | none => none
  | some l4 =>
  match reDigits12 l4 with
  | none => none
  | some (dds, l5) => reAfterDay m1 m2 m3 dds l5

/-- Structural decomposition of a string along
`^[A-Z][a-z]{2} \d{1,2}, \d{4}, \d{1,2}:\d{2} [AP]M$` (line 14 of the
source).  Succeeds exactly on the strings the anchored regex matches. -/
def dateComponents (l : List Char) : Option DComp :=
  match reCl isUpCh l with
  | none => none
  | some (m1, l1) =>
  match reCl isLoCh l1 with
  | none => none
  | some (m2, l2) =>
  match reCl isLoCh l2 with
  | none => none
  | some (m3, l3) => reAfterMonth m1 m2 m3 l3

/-- `DATE_RE.match(s)` truth value (the anchored regex matches `s`). -/
def matchesDateRe (s : String) : Bool := (dateComponents s.data).isSome

/-- The fields of a Python naive `datetime` that the script uses. -/
structure PyDateTime where
  year : Nat
  month : Nat
  day : Nat
  hour : Nat
  minute : Nat
deriving DecidableEq, Repr

/-- Abbreviated month lookup of `strptime`'s `%b` directive (input
already lower-cased; matching is case-insensitive in Python). -/
def monthNum (l : List Char) : Option Nat :=
  if l = ['j', 'a', 'n'] then some 1
  else if l = ['f', 'e', 'b'] then some 2
  else if l = ['m', 'a', 'r'] then some 3
  else if l = ['a', 'p', 'r'] then some 4
  else if l = ['m', 'a', 'y'] then some 5
  else if l = ['j', 'u', 'n'] then some 6
  else if l = ['j', 'u', 'l'] then some 7
  else if l = ['a', 'u', 'g'] then some 8
  else if l = ['s', 'e', 'p'] then some 9
  else if l = ['o', 'c', 't'] then some 10
  else if l = ['n', 'o', 'v'] then some 11
  else if l = ['d', 'e', 'c'] then some 12
  else none

/-- `%b`: one of the twelve three-letter month abbreviations,
case-insensitively. -/
def strpMonth : List Char → Option (Nat × List Char)
  | c1 :: c2 :: c3 :: rest =>
      match monthNum [c1.toLower, c2.toLower, c3.toLower] with
      | some m => some (m, rest)
      | none => none
  | _ => none

/-- Whitespace in the `strptime` format string matches `\s+`. -/
def strpWs : List Char → Option (List Char)
  | c :: rest =>
      if isSpaceCh c then some (rest.dropWhile (fun d => isSpaceCh d)) else none
  | [] => none

/-- A literal character of the `strptime` format string. -/
def strpLit (ch : Char) : List Char → Option (List Char)
  | c :: rest => if c = ch then some rest else none
  | [] => none

/-- `%d`: `3[01]|[12]\d|0[1-9]|[1-9]`, alternatives in Python's order;
the value is `int` of the matched text. -/
def strpDay : List Char → Option (Nat × List Char)
  | c1 :: c2 :: rest =>
      if c1 = '3' ∧ (c2 = '0' ∨ c2 = '1') then
        some (10 * dval c1 + dval c2, rest)
      else if (c1 = '1' ∨ c1 = '2') ∧ isDigCh c2 = true then
        some (10 * dval c1 + dval c2, rest)
      else if c1 = '0' ∧ ('1' ≤ c2 ∧ c2 ≤ '9') then
        some (10 * dval c1 + dval c2, rest)
      else if '1' ≤ c1 ∧ c1 ≤ '9' then
        some (dval c1, c2 :: rest)
      else none
  | [c1] => if '1' ≤ c1 ∧ c1 ≤ '9' then some (dval c1, []) else none
  | [] => none

/-- `%I`: `1[0-2]|0[1-9]|[1-9]`. -/
def strpHour : List Char → Option (Nat × List Char)
  | c1 :: c2 :: rest =>
      if c1 = '1' ∧ ('0' ≤ c2 ∧ c2 ≤ '2') then
        some (10 * dval c1 + dval c2, rest)
      else if c1 = '0' ∧ ('1' ≤ c2 ∧ c2 ≤ '9') then
        some (10 * dval c1 + dval c2, rest)
      else if '1' ≤ c1 ∧ c1 ≤ '9' then
        some (dval c1, c2 :: rest)
      else none
  | [c1] => if '1' ≤ c1 ∧ c1 ≤ '9' then some (dval c1, []) else none
  | [] => none

/-- `%M`: `[0-5]\d|\d`. -/
def strpMin : List Char → Option (Nat × List Char)
  | c1 :: c2 :: rest =>
      if ('0' ≤ c1 ∧ c1 ≤ '5') ∧ isDigCh c2 = true then
        some (10 * dval c1 + dval c2, rest)
      else if isDigCh c1 = true then some (dval c1, c2 :: rest)
      else none
  | [c1] => if isDigCh c1 = true then some (dval c1, []) else none
  | [] => none

/-- `%Y`: four digits. -/
def strpYear : List Char → Option (Nat × List Char)
  | a :: b :: c :: d :: rest =>
      if isDigCh a = true ∧ isDigCh b = true ∧ isDigCh c = true ∧
         isDigCh d = true then
        some (1000 * dval a + 100 * dval b + 10 * dval c + dval d, rest)
      else none
  | _ => none

/-- `%p`: `AM` or `PM`, case-insensitively; `true` means PM. -/
def strpAmPm : List Char → Option (Bool × List Char)
  | c1 :: c2 :: rest =>
      if c1.toLower = 'a' ∧ c2.toLower = 'm' then some (false, rest)
      else if c1.toLower = 'p' ∧ c2.toLower = 'm' then some (true, rest)
      else none
  | _ => none

/-- Length of month `m` of year `y`, as Python's `datetime` validates
the day (Gregorian leap rule). -/
def daysInMonth (y m : Nat) : Nat :=
  if m = 2 then
    if y % 4 = 0 ∧ (y % 100 ≠ 0 ∨ y % 400 = 0) then 29 else 28
  else if m = 4 ∨ m = 6 ∨ m = 9 ∨ m = 11 then 30
  else 31

/-- The range checks of the `datetime(year, month, day, hour, minute)`
constructor: out-of-range components raise `ValueError`. -/
def mkDatetime (y m d h mi : Nat) : Option PyDateTime :=
  if 1 ≤ y ∧ y ≤ 9999 ∧ 1 ≤ m ∧ m ≤ 12 ∧ 1 ≤ d ∧ d ≤ daysInMonth y m ∧
     h ≤ 23 ∧ mi ≤ 59 then
    some ⟨y, m, d, h, mi⟩
  else none

/-- `datetime.strptime(dt_str, "%b %d, %Y, %I:%M %p")` on a character
list, staged by format directive.  After `%p`, `strptime` converts the
`%I` hour to a 24-hour value.  The stages below split the match at each
literal separator. -/
def parseAfterMin (mon day year h12 minute : Nat) (l : List Char) :
    Option PyDateTime :=
  match strpWs l with
  | none => none
  | some l12 =>
  match strpAmPm l12 with
  | none => none
  | some (pm, l13) =>
  if l13 = [] then
    mkDatetime year mon day
      (if pm then (if h12 = 12 then 12 else h12 + 12)
       else (if h12 = 12 then 0 else h12)) minute
  else none

def parseAfterHour (mon day year h12 : Nat) (l : List Char) :
    Option PyDateTime :=
  match strpLit ':' l with
  | none => none
  | some l10 =>
  match strpMin l10 with
  | none => none
  | some (minute, l11) => parseAfterMin mon day year h12 minute l11

def parseAfterYear (mon day year : Nat) (l : List Char) :
    Option PyDateTime :=
  match strpLit ',' l with
  | none => none
  | some l7 =>
  match strpWs l7 with
  | none => none
  | some l8 =>
  match strpHour l8 with
  | none => none
  | some (h12, l9) => parseAfterHour mon day year h12 l9

def parseAfterDay (mon day : Nat) (l : List Char) : Option PyDateTime :=
  match strpLit ',' l with
  | none => none
  | some l4 =>
  match strpWs l4 with
  | none => none
  | some l5 =>
  match strpYear l5 with
  | none => none
  | some (year, l6) => parseAfterYear mon day year l6

def parseAfterMonth (mon : Nat) (l : List Char) : Option PyDateTime :=
  match strpWs l with
  | none => none
  | some l2 =>
  match strpDay l2 with
  | none => none
  | some (day, l3) => parseAfterDay mon day l3

def parseChars (l : List Char) : Option PyDateTime :=
  match strpMonth l with
  | none => none
  | some (mon, l1) => parseAfterMonth mon l1

/-- `parse_naive_local` (source lines 62-64): `datetime.strptime` with
format `"%b %d, %Y, %I:%M %p"`; `none` models the `ValueError` raised
on parse failure. -/
def parse_naive_local (s : String) : Option PyDateTime := parseChars s.data

/-- An anchor element matched in the document, with the data the
extractor reads from it: its `href` attribute, its stripped visible
text, and the stripped text values of its parent's following siblings
in document order. -/
structure Anchor where
  href : String
  text : String
  siblings : List String
deriving DecidableEq, Repr

/-- The dict yielded by `fetch_event_blocks` for one accepted anchor. -/
structure RawRecord where
  title : String
  date_str : String
  venue : String
  url : String
deriving DecidableEq, Repr

/-- Character-list prefix test. -/
def listIsPfx : List Char → List Char → Bool
  | [], _ => true
  | _ :: _, [] => false
  | a :: as, b :: bs => a = b && listIsPfx as bs

/-- Character-list substring test (Python's `in`, as used by the CSS
selector `a[href*="/event-details/"]`). -/
def listHasSub (n : List Char) : List Char → Bool
  | [] => listIsPfx n []
  | c :: t => listIsPfx n (c :: t) || listHasSub n t

/-- Substring test on strings. -/
def hasSubstr (hay needle : String) : Bool := listHasSub needle.data hay.data

/-- Python's `str.lower`, character by character (ASCII case mapping). -/
def strLower (s : String) : String := ⟨s.data.map Char.toLower⟩

/-- The sibling walk of `fetch_event_blocks` (source lines 33-46):
skip empty texts, stop at a case-insensitive "learn more", collect at
most `k` texts (the script starts with capacity 2). -/
def collectTexts : Nat → List String → List String
  | _, [] => []
  | 0, _ :: _ => []
  | Nat.succ k, t :: rest =>
      if t = "" then collectTexts (k + 1) rest
      else if strLower t = "learn more" then []
      else t :: collectTexts k rest

/-- The per-anchor body of the `fetch_event_blocks` loop (source lines
25-60): drop empty titles, run the sibling walk, require the first
collected text to match `DATE_RE`, and yield the record.  `urljoin` is
the URL resolution function applied to the page URL and the `href`. -/
def extractRecord (urljoin : String → String → String) (url : String)
    (a : Anchor) : Option RawRecord :=
  if a.text = "" then none
  else
    match collectTexts 2 a.siblings with
    | [] => none
    | t0 :: rest =>
        if matchesDateRe t0 then
          some { title := a.text, date_str := t0,
                 venue := (match rest with | [] => "" | v :: _ => v),
                 url := urljoin url a.href }
        else none

/-- `fetch_event_blocks` (source lines 16-60): select the anchors whose
`href` contains `/event-details/`, in document order, and yield one
record per accepted anchor. -/
def fetch_event_blocks (urljoin : String → String → String) (url : String)
    (anchors : List Anchor) : List RawRecord :=
  (anchors.filter (fun a => hasSubstr a.href "/event-details/")).filterMap
    (extractRecord urljoin url)

/-- One `ics` `Event` as the script fills it in (source lines 76-82). -/
structure CalEvent where
  name : String
  begin_ : PyDateTime
  durationHours : Nat
  location : String
  url : String
deriving DecidableEq, Repr

/-- `build_calendar` (source lines 66-85).  Returns the events added to
the calendar, in input order, and the list of warnings, each modelled
as the `(date_str, title)` pair the printed message reports. -/
def build_calendar : List RawRecord → List CalEvent × List (String × String)
  | [] => ([], [])
  | b :: rest =>
      match parse_naive_local b.date_str with
      | none =>
          let r := build_calendar rest
          (r.1, (b.date_str, b.title) :: r.2)
      | some start =>
          let r := build_calendar rest
          ({ name := b.title, begin_ := start, durationHours := 2,
             location := b.venue, url := b.url } :: r.1, r.2)

def BASE_PAGE : String := "https://www.maryhalvorson.com/upcoming-dates"

def OUTPUT_FILE : String := "docs/mary.ics"

/-- The observable outcome of `main`: the returned result code, and the
event list serialized to `OUTPUT_FILE` when a file is written. -/
structure RunResult where
  code : Nat
  output : Option (List CalEvent)
deriving DecidableEq, Repr

/-- `main` (source lines 87-98): collect the blocks from the listing
page; if none, return 2 without writing; otherwise build the calendar,
write it, and return 0. -/
def mainRun (urljoin : String → String → String) (anchors : List Anchor) :
    RunResult :=
  let blocks := fetch_event_blocks urljoin BASE_PAGE anchors
  if blocks = [] then { code := 2, output := none }
  else { code := 0, output := some (build_calendar blocks).1 }

/-! ### Helper lemmas -/

theorem build_cons_of_parse_fail (b : RawRecord) (rest : List RawRecord)
    (h : parse_naive_local b.date_str = none) :
    build_calendar (b :: rest) =
      ((build_calendar rest).1,
       (b.date_str, b.title) :: (build_calendar rest).2) := by
  simp [build_calendar, h]

theorem build_cons_of_parse_ok (b : RawRecord) (rest : List RawRecord)
    (dt : PyDateTime) (h : parse_naive_local b.date_str = some dt) :
    build_calendar (b :: rest) =
      ({ name := b.title, begin_ := dt, durationHours := 2,
         location := b.venue, url := b.url } :: (build_calendar rest).1,
       (build_calendar rest).2) := by
  simp [build_calendar, h]

/-! ### C1 -/

/-- C1 counterexample: a listing page with one event link whose date
string matches `DATE_RE` but fails to parse ("Feb 30" is an impossible
day-of-month).  One block is found, zero events are added, yet `main`
returns 0 and writes an empty calendar — not the result code 2 the
claim requires for the "blocks found but zero events added" case. -/
theorem mainRun_zero_added_returns_zero :
    fetch_event_blocks (fun b h => String.append b h) BASE_PAGE
        [{ href := "/event-details/e", text := "Show",
           siblings := ["Feb 30, 2026, 7:00 PM", "Venue"] }] ≠ [] ∧
    mainRun (fun b h => String.append b h)
        [{ href := "/event-details/e", text := "Show",
           siblings := ["Feb 30, 2026, 7:00 PM", "Venue"] }] =
      { code := 0, output := some [] } := by
  constructor
  · decide
  · decide

/-- C1 (amended): `main` returns 0 iff `fetch_event_blocks` yielded at
least one block, and 2 iff it yielded none; the count of events that
actually parse plays no role in the result code. -/
theorem mainRun_code_iff_blocks (j : String → String → String)
    (anchors : List Anchor) :
    ((mainRun j anchors).code = 0 ↔
      fetch_event_blocks j BASE_PAGE anchors ≠ []) ∧
    ((mainRun j anchors).code = 2 ↔
      fetch_event_blocks j BASE_PAGE anchors = []) := by
  unfold mainRun
  by_cases h : fetch_event_blocks j BASE_PAGE anchors = [] <;> simp [h]

/-- C1 (amended) instantiated: an empty document gives result code 2. -/
theorem mainRun_code_iff_blocks_witness :
    (mainRun (fun b h => String.append b h) []).code = 2 :=
  (mainRun_code_iff_blocks (fun b h => String.append b h) []).2.mpr (by decide)

/-! ### C3 -/

/-- C3: if no anchor's link target contains `/event-details/`, the run
produces zero records, returns the non-fatal code 2, and writes no
output file. -/
theorem no_event_links_result (j : String → String → String)
    (anchors : List Anchor)
    (h : ∀ a ∈ anchors, hasSubstr a.href "/event-details/" = false) :
    fetch_event_blocks j BASE_PAGE anchors = [] ∧
    mainRun j anchors = { code := 2, output := none } := by
  have hf : fetch_event_blocks j BASE_PAGE anchors = [] := by
    unfold fetch_event_blocks
    have : anchors.filter (fun a => hasSubstr a.href "/event-details/") = [] := by
      simp only [List.filter_eq_nil_iff]
      intro a ha
      simp [h a ha]
    simp [this]
  exact ⟨hf, by simp [mainRun, hf]⟩

/-- C3 instantiated: a page with only a non-event link yields no
records and result code 2. -/
theorem no_event_links_result_witness :
    fetch_event_blocks (fun b h => String.append b h) BASE_PAGE
        [{ href := "/about", text := "About", siblings := [] }] = [] ∧
    mainRun (fun b h => String.append b h)
        [{ href := "/about", text := "About", siblings := [] }] =
      { code := 2, output := none } :=
  no_event_links_result (fun b h => String.append b h)
    [{ href := "/about", text := "About", siblings := [] }] (by decide)

/-! ### C4 -/

/-- C4: when a record's date string fails to parse, `build_calendar`
drops the record — adding a warning naming its date string and title,
constructing no event for it — and the remaining records are processed
exactly as they would be without it; the run is never aborted. -/
theorem build_calendar_skips_bad_date (b : RawRecord)
    (rest : List RawRecord) (h : parse_naive_local b.date_str = none) :
    build_calendar (b :: rest) =
      ((build_calendar rest).1,
       (b.date_str, b.title) :: (build_calendar rest).2) := by
  simp [build_calendar, h]

/-- C4 instantiated: a bad date ("Feb 30") is dropped with a warning
while the following good record still produces its event. -/
theorem build_calendar_skips_bad_date_witness :
    build_calendar
        [{ title := "Bad", date_str := "Feb 30, 2026, 7:00 PM",
           venue := "V1", url := "u1" },
         { title := "Good", date_str := "Nov 1, 2025, 7:00 PM",
           venue := "V2", url := "u2" }] =
      ((build_calendar
          [{ title := "Good", date_str := "Nov 1, 2025, 7:00 PM",
             venue := "V2", url := "u2" }]).1,
       ("Feb 30, 2026, 7:00 PM", "Bad") ::
        (build_calendar
          [{ title := "Good", date_str := "Nov 1, 2025, 7:00 PM",
             venue := "V2", url := "u2" }]).2) :=
  build_calendar_skips_bad_date
    { title := "Bad", date_str := "Feb 30, 2026, 7:00 PM",
      venue := "V1", url := "u1" }
    [{ title := "Good", date_str := "Nov 1, 2025, 7:00 PM",
       venue := "V2", url := "u2" }] (by decide)

/-! ### C8 -/

/-- C8: a record whose date string parses becomes a calendar entry with
name = title, start = the parsed timestamp, location = the venue, URL =
the detail link, and a fixed duration of 2 hours, regardless of input. -/
theorem build_calendar_event_fields (b : RawRecord)
    (rest : List RawRecord) (dt : PyDateTime)
    (h : parse_naive_local b.date_str = some dt) :
    build_calendar (b :: rest) =
      ({ name := b.title, begin_ := dt, durationHours := 2,
         location := b.venue, url := b.url } :: (build_calendar rest).1,
       (build_calendar rest).2) := by
  simp [build_calendar, h]

/-- C8 instantiated on a concrete record. -/
theorem build_calendar_event_fields_witness :
    build_calendar
        [{ title := "Show", date_str := "Oct 23, 2025, 8:30 PM",
           venue := "Roulette", url := "u" }] =
      ([{ name := "Show",
          begin_ := { year := 2025, month := 10, day := 23,
                      hour := 20, minute := 30 },
          durationHours := 2, location := "Roulette", url := "u" }], []) :=
  build_calendar_event_fields
    { title := "Show", date_str := "Oct 23, 2025, 8:30 PM",
      venue := "Roulette", url := "u" } []
    { year := 2025, month := 10, day := 23, hour := 20, minute := 30 }
    (by decide)

/-! ### C7 -/

/-- C7: an anchor whose link target contains `/event-details/` but
whose visible text is empty is skipped silently: it yields no record,
and the records of the rest of the document are unaffected. -/
theorem empty_title_anchor_skipped (j : String → String → String)
    (url : String) (a : Anchor)
    (h1 : hasSubstr a.href "/event-details/" = true) (h2 : a.text = "") :
    extractRecord j url a = none ∧
    ∀ pre post, fetch_event_blocks j url (pre ++ a :: post) =
      fetch_event_blocks j url pre ++ fetch_event_blocks j url post := by
  have hext : extractRecord j url a = none := by simp [extractRecord, h2]
  refine ⟨hext, fun pre post => ?_⟩
  unfold fetch_event_blocks
  simp [List.filter_append, List.filter_cons, h1, List.filterMap_append,
        List.filterMap_cons, hext]

/-- C7 instantiated: an empty-titled event link between two valid ones
yields nothing. -/
theorem empty_title_anchor_skipped_witness :
    extractRecord (fun b h => String.append b h) "U"
        { href := "/event-details/x", text := "",
          siblings := ["Nov 1, 2025, 7:00 PM", "V"] } = none :=
  (empty_title_anchor_skipped (fun b h => String.append b h) "U"
    { href := "/event-details/x", text := "",
      siblings := ["Nov 1, 2025, 7:00 PM", "V"] } (by decide) (by decide)).1

/-! ### Sibling-walk lemmas -/

theorem collectTexts_length_le (sibs : List String) :
    ∀ k, (collectTexts k sibs).length ≤ k := by
  induction sibs with
  | nil => intro k; simp [collectTexts]
  | cons t rest ih =>
      intro k
      cases k with
      | zero => simp [collectTexts]
      | succ k' =>
          by_cases h1 : t = ""
          · simpa [collectTexts, h1] using ih (k' + 1)
          · by_cases h2 : strLower t = "learn more"
            · simp [collectTexts, h1, h2]
            · simp only [collectTexts, if_neg h1, if_neg h2, List.length_cons]
              exact Nat.succ_le_succ (ih k')

theorem collectTexts_sublist (sibs : List String) :
    ∀ k, List.Sublist (collectTexts k sibs) sibs := by
  induction sibs with
  | nil => intro k; simp [collectTexts]
  | cons t rest ih =>
      intro k
      cases k with
      | zero => simp [collectTexts]
      | succ k' =>
          by_cases h1 : t = ""
          · simpa [collectTexts, h1] using (ih (k' + 1)).cons t
          · by_cases h2 : strLower t = "learn more"
            · simp [collectTexts, h1, h2]
            · simpa [collectTexts, h1, h2] using (ih k').cons₂ t

theorem collectTexts_mem (sibs : List String) :
    ∀ k t, t ∈ collectTexts k sibs → t ≠ "" ∧ strLower t ≠ "learn more" := by
  induction sibs with
  | nil => intro k t h; simp [collectTexts] at h
  | cons u rest ih =>
      intro k t h
      cases k with
      | zero => simp [collectTexts] at h
      | succ k' =>
          by_cases h1 : u = ""
          · exact ih (k' + 1) t (by simpa [collectTexts, h1] using h)
          · by_cases h2 : strLower u = "learn more"
            · simp [collectTexts, h1, h2] at h
            · simp only [collectTexts, if_neg h1, if_neg h2,
                         List.mem_cons] at h
              rcases h with rfl | h
              · exact ⟨h1, h2⟩
              · exact ih k' t h

theorem collectTexts_stop_suffix (pre : List String) :
    ∀ (k : Nat) (t : String) (post : List String),
      strLower t = "learn more" →
      collectTexts k (pre ++ t :: post) = collectTexts k pre := by
  induction pre with
  | nil =>
      intro k t post h2
      cases k with
      | zero => simp [collectTexts]
      | succ k' =>
          have ht : t ≠ "" := by
            intro he
            rw [he] at h2
            exact absurd h2 (by decide)
          simp [collectTexts, ht, h2]
  | cons u pre' ih =>
      intro k t post h2
      cases k with
      | zero => simp [collectTexts]
      | succ k' =>
          by_cases h1 : u = ""
          · simp only [List.cons_append, collectTexts, if_pos h1]
            exact ih (k' + 1) t post h2
          · by_cases h3 : strLower u = "learn more"
            · simp [collectTexts, h1, h3]
            · simp only [List.cons_append, collectTexts, if_neg h1,
                         if_neg h3]
              exact congrArg (fun x => u :: x) (ih k' t post h2)

theorem collectTexts_all_empty (pre : List String)
    (h : ∀ u ∈ pre, u = "") : ∀ k, collectTexts k pre = [] := by
  induction pre with
  | nil => intro k; simp [collectTexts]
  | cons u pre' ih =>
      intro k
      cases k with
      | zero => simp [collectTexts]
      | succ k' =>
          have hu : u = "" := h u (by simp)
          simp only [collectTexts, if_pos hu]
          exact ih (fun v hv => h v (by simp [hv])) (k' + 1)

/-! ### C5 -/

/-- C5: the sibling walk collects at most two texts, in document order
(the collected list is a sublist of the sibling texts), every collected
text is non-empty and not a case-insensitive "learn more"; the walk
stops as soon as a sibling's text case-insensitively equals
"learn more" — whatever follows such a sibling is discarded, so the
result equals the walk over the preceding siblings alone; in
particular, when the first non-empty sibling text is "learn more",
nothing is collected and the candidate anchor yields no record. -/
theorem sibling_walk_props (sibs : List String) :
    (collectTexts 2 sibs).length ≤ 2 ∧
    List.Sublist (collectTexts 2 sibs) sibs ∧
    (∀ t ∈ collectTexts 2 sibs, t ≠ "" ∧ strLower t ≠ "learn more") ∧
    (∀ pre t post, sibs = pre ++ t :: post →
      strLower t = "learn more" →
      collectTexts 2 sibs = collectTexts 2 pre) ∧
    (∀ pre t post, sibs = pre ++ t :: post → (∀ u ∈ pre, u = "") →
      strLower t = "learn more" →
      collectTexts 2 sibs = [] ∧
      ∀ (j : String → String → String) (url : String) (a : Anchor),
        a.siblings = sibs → extractRecord j url a = none) := by
  refine ⟨collectTexts_length_le sibs 2, collectTexts_sublist sibs 2,
          fun t ht => collectTexts_mem sibs 2 t ht,
          fun pre t post hs h2 => by
            rw [hs]; exact collectTexts_stop_suffix pre 2 t post h2,
          fun pre t post hs h1 h2 => ?_⟩
  subst hs
  have hnil : collectTexts 2 (pre ++ t :: post) = [] := by
    rw [collectTexts_stop_suffix pre 2 t post h2,
        collectTexts_all_empty pre h1 2]
  refine ⟨hnil, fun j url a ha => ?_⟩
  unfold extractRecord
  rw [ha, hnil]
  by_cases hat : a.text = "" <;> simp [hat]

/-- C5 instantiated: with sibling texts `["A", "Learn more", "B"]` the
walk stops at "Learn more" even though a text was already collected
(the "B" is never reached), and with `["", "Learn more", "x"]` nothing
is collected and the anchor yields no record. -/
theorem sibling_walk_props_witness :
    collectTexts 2 ["A", "Learn more", "B"] = collectTexts 2 ["A"] ∧
    collectTexts 2 ["", "Learn more", "x"] = [] ∧
    extractRecord (fun b h => String.append b h) "U"
      { href := "/event-details/x", text := "T",
        siblings := ["", "Learn more", "x"] } = none := by
  have hgen := (sibling_walk_props ["A", "Learn more", "B"]).2.2.2.1
    ["A"] "Learn more" ["B"] rfl (by decide)
  have h := (sibling_walk_props ["", "Learn more", "x"]).2.2.2.2
    [""] "Learn more" ["x"] rfl (by decide) (by decide)
  exact ⟨hgen, h.1, h.2 (fun b h => String.append b h) "U"
    { href := "/event-details/x", text := "T",
      siblings := ["", "Learn more", "x"] } rfl⟩

/-! ### C6 -/

/-- C6: for a matched anchor with a non-empty title whose walk collected
at least one text, the first collected text decides the outcome: if it
matches `DATE_RE` the extractor yields the record with that date string
and the second text (or "") as venue; otherwise no record is yielded. -/
theorem first_collected_text_decides (j : String → String → String)
    (url : String) (a : Anchor) (t0 : String) (rest : List String)
    (h1 : a.text ≠ "") (h2 : collectTexts 2 a.siblings = t0 :: rest) :
    (matchesDateRe t0 = true →
      extractRecord j url a =
        some { title := a.text, date_str := t0, venue := rest.headD "",
               url := j url a.href }) ∧
    (matchesDateRe t0 = false → extractRecord j url a = none) := by
  unfold extractRecord
  rw [if_neg h1, h2]
  constructor
  · intro hm
    cases rest <;> simp [hm, List.headD]
  · intro hm
    simp [hm]

/-- C6 instantiated on the spec's Strategy B example: sibling texts
`["Nov 1, 2025, 7:00 PM", "Crocodile, Seattle"]` yield a record with
that date string and venue "Crocodile, Seattle". -/
theorem first_collected_text_decides_witness :
    extractRecord (fun b h => String.append b h) "U"
        { href := "/event-details/x", text := "T",
          siblings := ["Nov 1, 2025, 7:00 PM", "Crocodile, Seattle"] } =
      some { title := "T", date_str := "Nov 1, 2025, 7:00 PM",
             venue := "Crocodile, Seattle", url := "U/event-details/x" } := by
  have h := (first_collected_text_decides (fun b h => String.append b h) "U"
    { href := "/event-details/x", text := "T",
      siblings := ["Nov 1, 2025, 7:00 PM", "Crocodile, Seattle"] }
    "Nov 1, 2025, 7:00 PM" ["Crocodile, Seattle"]
    (by decide) (by decide)).1 (by decide)
  simpa using h

/-! ### C9 -/

/-- C9: `fetch_event_blocks` deduplicates nothing: when the same anchor
occurs twice in the document, each occurrence yields its own record, in
document order, so two records with the same detail URL are produced. -/
theorem fetch_event_blocks_no_dedup (j : String → String → String)
    (url : String) (a : Anchor) (r : RawRecord) (l1 l2 l3 : List Anchor)
    (h1 : hasSubstr a.href "/event-details/" = true)
    (h2 : extractRecord j url a = some r) :
    fetch_event_blocks j url (l1 ++ a :: (l2 ++ a :: l3)) =
      fetch_event_blocks j url l1 ++
        r :: (fetch_event_blocks j url l2 ++
          r :: fetch_event_blocks j url l3) := by
  unfold fetch_event_blocks
  simp [List.filter_append, List.filter_cons, h1, List.filterMap_append,
        List.filterMap_cons, h2]

/-- C9 instantiated: a duplicated valid anchor produces two identical
records with the same URL. -/
theorem fetch_event_blocks_no_dedup_witness :
    fetch_event_blocks (fun b h => String.append b h) "U"
        [{ href := "/event-details/e1", text := "T",
           siblings := ["Nov 1, 2025, 7:00 PM", "V"] },
         { href := "/event-details/e1", text := "T",
           siblings := ["Nov 1, 2025, 7:00 PM", "V"] }] =
      [{ title := "T", date_str := "Nov 1, 2025, 7:00 PM", venue := "V",
         url := "U/event-details/e1" },
       { title := "T", date_str := "Nov 1, 2025, 7:00 PM", venue := "V",
         url := "U/event-details/e1" }] := by
  have h := fetch_event_blocks_no_dedup (fun b h => String.append b h) "U"
    { href := "/event-details/e1", text := "T",
      siblings := ["Nov 1, 2025, 7:00 PM", "V"] }
    { title := "T", date_str := "Nov 1, 2025, 7:00 PM", venue := "V",
      url := "U/event-details/e1" } [] [] []
    (by decide) (by decide)
  simpa using h

/-! ### C10 -/

/-- C10: every record yielded by `fetch_event_blocks` has a non-empty
title, a date string matching `DATE_RE`, and comes from an anchor of the
document whose link target contains `/event-details/`, with the record's
title the anchor's text and its URL the anchor's href resolved against
the page URL.  (The venue is a total `String` field, possibly empty, by
construction.) -/
theorem fetch_event_blocks_invariant (j : String → String → String)
    (url : String) (anchors : List Anchor) (r : RawRecord)
    (h : r ∈ fetch_event_blocks j url anchors) :
    r.title ≠ "" ∧ matchesDateRe r.date_str = true ∧
    ∃ a ∈ anchors, hasSubstr a.href "/event-details/" = true ∧
      r.title = a.text ∧ r.url = j url a.href := by
  unfold fetch_event_blocks at h
  rw [List.mem_filterMap] at h
  obtain ⟨a, ha, hext⟩ := h
  rw [List.mem_filter] at ha
  obtain ⟨hmem, hsel⟩ := ha
  unfold extractRecord at hext
  by_cases ht : a.text = ""
  · simp [ht] at hext
  · rw [if_neg ht] at hext
    cases hct : collectTexts 2 a.siblings with
    | nil => rw [hct] at hext; simp at hext
    | cons t0 rest =>
        rw [hct] at hext
        dsimp only at hext
        by_cases hm : matchesDateRe t0 = true
        · rw [if_pos hm] at hext
          have hr := Option.some.inj hext
          refine ⟨?_, ?_, a, hmem, hsel, ?_, ?_⟩
          · rw [← hr]; exact ht
          · rw [← hr]; exact hm
          · rw [← hr]
          · rw [← hr]
        · rw [if_neg hm] at hext
          exact absurd hext (by simp)

/-- C10 instantiated on a concrete document. -/
theorem fetch_event_blocks_invariant_witness :
    ({ title := "T", date_str := "Nov 1, 2025, 7:00 PM", venue := "V",
       url := "U/event-details/e1" } : RawRecord).title ≠ "" ∧
    matchesDateRe ({ title := "T", date_str := "Nov 1, 2025, 7:00 PM",
                     venue := "V", url := "U/event-details/e1" } :
                   RawRecord).date_str = true ∧
    ∃ a ∈ [({ href := "/event-details/e1", text := "T",
              siblings := ["Nov 1, 2025, 7:00 PM", "V"] } : Anchor)],
      hasSubstr a.href "/event-details/" = true ∧
      ({ title := "T", date_str := "Nov 1, 2025, 7:00 PM", venue := "V",
         url := "U/event-details/e1" } : RawRecord).title = a.text ∧
      ({ title := "T", date_str := "Nov 1, 2025, 7:00 PM", venue := "V",
         url := "U/event-details/e1" } : RawRecord).url =
        (fun b h => String.append b h) "U" a.href :=
  fetch_event_blocks_invariant (fun b h => String.append b h) "U"
    [{ href := "/event-details/e1", text := "T",
       siblings := ["Nov 1, 2025, 7:00 PM", "V"] }]
    { title := "T", date_str := "Nov 1, 2025, 7:00 PM", venue := "V",
      url := "U/event-details/e1" } (by decide)

/-! ### Inversion of the `DATE_RE` decomposition -/

/-- The shape of a `\d{1,2}` group: one or two digit characters. -/
def Digits12 (l : List Char) : Prop :=
  (∃ d, l = [d] ∧ isDigCh d = true) ∨
  (∃ d e, l = [d, e] ∧ isDigCh d = true ∧ isDigCh e = true)

theorem reCl_some {p : Char → Bool} {l : List Char} {c : Char}
    {r : List Char} (h : reCl p l = some (c, r)) : l = c :: r ∧ p c = true := by
  cases l with
  | nil => simp [reCl] at h
  | cons a t =>
      by_cases hp : p a = true
      · simp only [reCl, if_pos hp, Option.some.injEq, Prod.mk.injEq] at h
        obtain ⟨rfl, rfl⟩ := h
        exact ⟨rfl, hp⟩
      · simp [reCl, hp] at h

theorem reCh_some {ch : Char} {l r : List Char} (h : reCh ch l = some r) :
    l = ch :: r := by
  cases l with
  | nil => simp [reCh] at h
  | cons a t =>
      by_cases he : a = ch
      · simp only [reCh, if_pos he, Option.some.injEq] at h
        rw [he, h]
      · simp [reCh, he] at h

theorem reDigits12_some {l ds r : List Char}
    (h : reDigits12 l = some (ds, r)) : l = ds ++ r ∧ Digits12 ds := by
  cases l with
  | nil => simp [reDigits12] at h
  | cons c1 t =>
      cases t with
      | nil =>
          by_cases h1 : isDigCh c1 = true
          · simp only [reDigits12, if_pos h1, Option.some.injEq,
                       Prod.mk.injEq] at h
            obtain ⟨rfl, rfl⟩ := h
            exact ⟨rfl, Or.inl ⟨c1, rfl, h1⟩⟩
          · simp [reDigits12, h1] at h
      | cons c2 t2 =>
          by_cases h1 : isDigCh c1 = true
          · by_cases h2 : isDigCh c2 = true
            · simp only [reDigits12, if_pos h1, if_pos h2,
                         Option.some.injEq, Prod.mk.injEq] at h
              obtain ⟨rfl, rfl⟩ := h
              exact ⟨rfl, Or.inr ⟨c1, c2, rfl, h1, h2⟩⟩
            · simp only [reDigits12, if_pos h1, if_neg h2,
                         Option.some.injEq, Prod.mk.injEq] at h
              obtain ⟨rfl, rfl⟩ := h
              exact ⟨rfl, Or.inl ⟨c1, rfl, h1⟩⟩
          · simp [reDigits12, h1] at h

theorem reAfterMinutes_some {m1 m2 m3 y1 y2 y3 y4 n1 n2 : Char}
    {dds hds l : List Char} {c : DComp}
    (h : reAfterMinutes m1 m2 m3 dds y1 y2 y3 y4 hds n1 n2 l = some c) :
    ∃ ap, apCl ap = true ∧ l = [' ', ap, 'M'] ∧
      c = ⟨m1, m2, m3, dds, y1, y2, y3, y4, hds, n1, n2, ap⟩ := by
  rw [reAfterMinutes] at h
  cases h1 : reCh ' ' l with
  | none => rw [h1] at h; simp at h
  | some l18 =>
      rw [h1] at h
      dsimp only at h
      cases h2 : reCl apCl l18 with
      | none => rw [h2] at h; simp at h
      | some x =>
          obtain ⟨ap, l19⟩ := x
          rw [h2] at h
          dsimp only at h
          cases h3 : reCh 'M' l19 with
          | none => rw [h3] at h; simp at h
          | some l20 =>
              rw [h3] at h
              dsimp only at h
              by_cases h4 : l20 = []
              · rw [if_pos h4] at h
                obtain ⟨hl18, hap⟩ := reCl_some h2
                refine ⟨ap, hap, ?_, (Option.some.inj h).symm⟩
                rw [reCh_some h1, hl18, reCh_some h3, h4]
              · rw [if_neg h4] at h; simp at h

theorem reAfterHour_some {m1 m2 m3 y1 y2 y3 y4 : Char}
    {dds hds l : List Char} {c : DComp}
    (h : reAfterHour m1 m2 m3 dds y1 y2 y3 y4 hds l = some c) :
    ∃ n1 n2 ap, isDigCh n1 = true ∧ isDigCh n2 = true ∧ apCl ap = true ∧
      l = ':' :: n1 :: n2 :: ' ' :: ap :: 'M' :: [] ∧
      c = ⟨m1, m2, m3, dds, y1, y2, y3, y4, hds, n1, n2, ap⟩ := by
  rw [reAfterHour] at h
  cases h1 : reCh ':' l with
  | none => rw [h1] at h; simp at h
  | some l15 =>
      rw [h1] at h
      dsimp only at h
      cases h2 : reCl isDigCh l15 with
      | none => rw [h2] at h; simp at h
      | some x =>
          obtain ⟨n1, l16⟩ := x
          rw [h2] at h
          dsimp only at h
          cases h3 : reCl isDigCh l16 with
          | none => rw [h3] at h; simp at h
          | some y =>
              obtain ⟨n2, l17⟩ := y
              rw [h3] at h
              dsimp only at h
              obtain ⟨ap, hap, hl17, hc⟩ := reAfterMinutes_some h
              obtain ⟨hl15, hn1⟩ := reCl_some h2
              obtain ⟨hl16, hn2⟩ := reCl_some h3
              refine ⟨n1, n2, ap, hn1, hn2, hap, ?_, hc⟩
              rw [reCh_some h1, hl15, hl16, hl17]

theorem reAfterYear_some {m1 m2 m3 y1 y2 y3 y4 : Char} {dds l : List Char}
    {c : DComp} (h : reAfterYear m1 m2 m3 dds y1 y2 y3 y4 l = some c) :
    ∃ hds n1 n2 ap, Digits12 hds ∧ isDigCh n1 = true ∧ isDigCh n2 = true ∧
      apCl ap = true ∧
      l = ',' :: ' ' :: (hds ++ ':' :: n1 :: n2 :: ' ' :: ap :: 'M' :: []) ∧
      c = ⟨m1, m2, m3, dds, y1, y2, y3, y4, hds, n1, n2, ap⟩ := by
  rw [reAfterYear] at h
  cases h1 : reCh ',' l with
  | none => rw [h1] at h; simp at h
  | some l12 =>
      rw [h1] at h
      dsimp only at h
      cases h2 : reCh ' ' l12 with
      | none => rw [h2] at h; simp at h
      | some l13 =>
          rw [h2] at h
          dsimp only at h
          cases h3 : reDigits12 l13 with
          | none => rw [h3] at h; simp at h
          | some x =>
              obtain ⟨hds, l14⟩ := x
              rw [h3] at h
              dsimp only at h
              obtain ⟨n1, n2, ap, hn1, hn2, hap, hl14, hc⟩ :=
                reAfterHour_some h
              obtain ⟨hl13, hds12⟩ := reDigits12_some h3
              refine ⟨hds, n1, n2, ap, hds12, hn1, hn2, hap, ?_, hc⟩
              rw [reCh_some h1, reCh_some h2, hl13, hl14]

theorem reAfterDay_some {m1 m2 m3 : Char} {dds l : List Char} {c : DComp}
    (h : reAfterDay m1 m2 m3 dds l = some c) :
    ∃ y1 y2 y3 y4 hds n1 n2 ap,
      isDigCh y1 = true ∧ isDigCh y2 = true ∧ isDigCh y3 = true ∧
      isDigCh y4 = true ∧ Digits12 hds ∧ isDigCh n1 = true ∧
      isDigCh n2 = true ∧ apCl ap = true ∧
      l = ',' :: ' ' :: y1 :: y2 :: y3 :: y4 :: ',' :: ' ' ::
            (hds ++ ':' :: n1 :: n2 :: ' ' :: ap :: 'M' :: []) ∧
      c = ⟨m1, m2, m3, dds, y1, y2, y3, y4, hds, n1, n2, ap⟩ := by
  rw [reAfterDay] at h
  cases h1 : reCh ',' l with
  | none => rw [h1] at h; simp at h
  | some l6 =>
      rw [h1] at h
      dsimp only at h
      cases h2 : reCh ' ' l6 with
      | none => rw [h2] at h; simp at h
      | some l7 =>
          rw [h2] at h
          dsimp only at h
          cases h3 : reCl isDigCh l7 with
          | none => rw [h3] at h; simp at h
          | some x1 =>
              obtain ⟨y1, l8⟩ := x1
              rw [h3] at h
              dsimp only at h
              cases h4 : reCl isDigCh l8 with
              | none => rw [h4] at h; simp at h
              | some x2 =>
                  obtain ⟨y2, l9⟩ := x2
                  rw [h4] at h
                  dsimp only at h
                  cases h5 : reCl isDigCh l9 with
                  | none => rw [h5] at h; simp at h
                  | some x3 =>
                      obtain ⟨y3, l10⟩ := x3
                      rw [h5] at h
                      dsimp only at h
                      cases h6 : reCl isDigCh l10 with
                      | none => rw [h6] at h; simp at h
                      | some x4 =>
                          obtain ⟨y4, l11⟩ := x4
                          rw [h6] at h
                          dsimp only at h
                          obtain ⟨hds, n1, n2, ap, hds12, hn1, hn2, hap,
                                  hl11, hc⟩ := reAfterYear_some h
                          obtain ⟨hl7, hy1⟩ := reCl_some h3
                          obtain ⟨hl8, hy2⟩ := reCl_some h4
                          obtain ⟨hl9, hy3⟩ := reCl_some h5
                          obtain ⟨hl10, hy4⟩ := reCl_some h6
                          refine ⟨y1, y2, y3, y4, hds, n1, n2, ap, hy1, hy2,
                                  hy3, hy4, hds12, hn1, hn2, hap, ?_, hc⟩
                          rw [reCh_some h1, reCh_some h2, hl7, hl8, hl9,
                              hl10, hl11]

theorem dateComponents_shape {l : List Char} {c : DComp}
    (h : dateComponents l = some c) :
    l = c.m1 :: c.m2 :: c.m3 :: ' ' ::
          (c.dds ++ ',' :: ' ' :: c.y1 :: c.y2 :: c.y3 :: c.y4 :: ',' :: ' ' ::
            (c.hds ++ ':' :: c.n1 :: c.n2 :: ' ' :: c.ap :: 'M' :: [])) ∧
    isUpCh c.m1 = true ∧ isLoCh c.m2 = true ∧ isLoCh c.m3 = true ∧
    Digits12 c.dds ∧ isDigCh c.y1 = true ∧ isDigCh c.y2 = true ∧
    isDigCh c.y3 = true ∧ isDigCh c.y4 = true ∧ Digits12 c.hds ∧
    isDigCh c.n1 = true ∧ isDigCh c.n2 = true ∧ apCl c.ap = true := by
  rw [dateComponents] at h
  cases h1 : reCl isUpCh l with
  | none => rw [h1] at h; simp at h
  | some x1 =>
      obtain ⟨m1, l1⟩ := x1
      rw [h1] at h
      dsimp only at h
      cases h2 : reCl isLoCh l1 with
      | none => rw [h2] at h; simp at h
      | some x2 =>
          obtain ⟨m2, l2⟩ := x2
          rw [h2] at h
          dsimp only at h
          cases h3 : reCl isLoCh l2 with
          | none => rw [h3] at h; simp at h
          | some x3 =>
              obtain ⟨m3, l3⟩ := x3
              rw [h3] at h
              dsimp only at h
              rw [reAfterMonth] at h
              cases h4 : reCh ' ' l3 with
              | none => rw [h4] at h; simp at h
              | some l4 =>
                  rw [h4] at h
                  dsimp only at h
                  cases h5 : reDigits12 l4 with
                  | none => rw [h5] at h; simp at h
                  | some xd =>
                      obtain ⟨dds, l5⟩ := xd
                      rw [h5] at h
                      dsimp only at h
                      obtain ⟨y1, y2, y3, y4, hds, n1, n2, ap, hy1, hy2, hy3,
                              hy4, hhds, hn1, hn2, hap, hl5, hc⟩ :=
                        reAfterDay_some h
                      obtain ⟨hl, hm1⟩ := reCl_some h1
                      obtain ⟨hl1, hm2⟩ := reCl_some h2
                      obtain ⟨hl2, hm3⟩ := reCl_some h3
                      obtain ⟨hl4, hdds⟩ := reDigits12_some h5
                      subst hc
                      refine ⟨?_, hm1, hm2, hm3, hdds, hy1, hy2, hy3, hy4,
                              hhds, hn1, hn2, hap⟩
                      rw [hl, hl1, hl2, reCh_some h4, hl4, hl5]

/-! ### Forward evaluation of the parser on `DATE_RE`-shaped input -/

theorem isDig_not_space {c : Char} (h : isDigCh c = true) :
    isSpaceCh c = false := by
  rw [isDigCh, decide_eq_true_eq] at h
  rw [isSpaceCh, decide_eq_false_iff_not]
  omega

theorem isDig_ne_comma {c : Char} (h : isDigCh c = true) : c ≠ ',' := by
  intro he
  rw [he] at h
  exact absurd h (by decide)

theorem isDig_ne_colon {c : Char} (h : isDigCh c = true) : c ≠ ':' := by
  intro he
  rw [he] at h
  exact absurd h (by decide)

theorem strpWs_single {c : Char} {r : List Char} (h : isSpaceCh c = false) :
    strpWs (' ' :: c :: r) = some (c :: r) := by
  have h1 : isSpaceCh ' ' = true := by decide
  simp [strpWs, h1, List.dropWhile_cons, h]

theorem parseChars_month_none {m1 m2 m3 : Char} {rest : List Char}
    (h : monthNum [m1.toLower, m2.toLower, m3.toLower] = none) :
    parseChars (m1 :: m2 :: m3 :: rest) = none := by
  simp only [parseChars, strpMonth, h]

theorem parseChars_month_some {m1 m2 m3 : Char} {rest : List Char} {m : Nat}
    (h : monthNum [m1.toLower, m2.toLower, m3.toLower] = some m) :
    parseChars (m1 :: m2 :: m3 :: rest) = parseAfterMonth m rest := by
  simp only [parseChars, strpMonth, h]

theorem parseAfterMonth_day1 {mon : Nat} {d : Char} {r : List Char}
    (hd : isDigCh d = true) :
    parseAfterMonth mon (' ' :: d :: ',' :: r) =
      if '1' ≤ d ∧ d ≤ '9' then parseAfterDay mon (dval d) (',' :: r)
      else none := by
  rw [parseAfterMonth, strpWs_single (isDig_not_space hd)]
  dsimp only
  rw [strpDay]
  rw [if_neg (fun hq => absurd hq.2 (by decide)),
      if_neg (fun hq => absurd hq.2 (by decide)),
      if_neg (fun hq => absurd hq.2 (by decide))]
  by_cases h4 : '1' ≤ d ∧ d ≤ '9'
  · rw [if_pos h4, if_pos h4]
  · rw [if_neg h4, if_neg h4]

theorem parseAfterMonth_day2 {mon : Nat} {d e : Char} {r : List Char}
    (hd : isDigCh d = true) (he : isDigCh e = true) :
    parseAfterMonth mon (' ' :: d :: e :: ',' :: r) =
      if (d = '3' ∧ (e = '0' ∨ e = '1')) ∨ (d = '1' ∨ d = '2') ∨
         (d = '0' ∧ ('1' ≤ e ∧ e ≤ '9'))
      then parseAfterDay mon (10 * dval d + dval e) (',' :: r)
      else none := by
  rw [parseAfterMonth, strpWs_single (isDig_not_space hd)]
  dsimp only
  rw [strpDay]
  by_cases h1 : d = '3' ∧ (e = '0' ∨ e = '1')
  · rw [if_pos h1]
    dsimp only
    rw [if_pos (Or.inl h1)]
  · rw [if_neg h1]
    by_cases h2 : d = '1' ∨ d = '2'
    · rw [if_pos ⟨h2, he⟩]
      dsimp only
      rw [if_pos (Or.inr (Or.inl h2))]
    · rw [if_neg (fun hq => h2 hq.1)]
      by_cases h3 : d = '0' ∧ ('1' ≤ e ∧ e ≤ '9')
      · rw [if_pos h3]
        dsimp only
        rw [if_pos (Or.inr (Or.inr h3))]
      · rw [if_neg h3]
        have hneg : ¬((d = '3' ∧ (e = '0' ∨ e = '1')) ∨ (d = '1' ∨ d = '2') ∨
            (d = '0' ∧ ('1' ≤ e ∧ e ≤ '9'))) := by
          rintro (hh | hh | hh)
          exacts [h1 hh, h2 hh, h3 hh]
        rw [if_neg hneg]
        by_cases h4 : '1' ≤ d ∧ d ≤ '9'
        · rw [if_pos h4]
          dsimp only
          rw [parseAfterDay, strpLit, if_neg (isDig_ne_comma he)]
        · rw [if_neg h4]

theorem parseAfterDay_year {mon day : Nat} {y1 y2 y3 y4 : Char}
    {r : List Char} (h1 : isDigCh y1 = true) (h2 : isDigCh y2 = true)
    (h3 : isDigCh y3 = true) (h4 : isDigCh y4 = true) :
    parseAfterDay mon day (',' :: ' ' :: y1 :: y2 :: y3 :: y4 :: r) =
      parseAfterYear mon day
        (1000 * dval y1 + 100 * dval y2 + 10 * dval y3 + dval y4) r := by
  rw [parseAfterDay, strpLit, if_pos rfl]
  dsimp only
  rw [strpWs_single (isDig_not_space h1)]
  dsimp only
  rw [strpYear, if_pos ⟨h1, h2, h3, h4⟩]

theorem parseAfterYear_hour1 {mon day year : Nat} {a : Char} {r : List Char}
    (ha : isDigCh a = true) :
    parseAfterYear mon day year (',' :: ' ' :: a :: ':' :: r) =
      if '1' ≤ a ∧ a ≤ '9' then
        parseAfterHour mon day year (dval a) (':' :: r)
      else none := by
  rw [parseAfterYear, strpLit, if_pos rfl]
  dsimp only
  rw [strpWs_single (isDig_not_space ha)]
  dsimp only
  rw [strpHour]
  rw [if_neg (fun hq => absurd hq.2.2 (by decide)),
      if_neg (fun hq => absurd hq.2.2 (by decide))]
  by_cases h4 : '1' ≤ a ∧ a ≤ '9'
  · rw [if_pos h4, if_pos h4]
  · rw [if_neg h4, if_neg h4]

theorem parseAfterYear_hour2 {mon day year : Nat} {a b : Char}
    {r : List Char} (ha : isDigCh a = true) (hb : isDigCh b = true) :
    parseAfterYear mon day year (',' :: ' ' :: a :: b :: ':' :: r) =
      if (a = '1' ∧ ('0' ≤ b ∧ b ≤ '2')) ∨ (a = '0' ∧ ('1' ≤ b ∧ b ≤ '9'))
      then parseAfterHour mon day year (10 * dval a + dval b) (':' :: r)
      else none := by
  rw [parseAfterYear, strpLit, if_pos rfl]
  dsimp only
  rw [strpWs_single (isDig_not_space ha)]
  dsimp only
  rw [strpHour]
  by_cases h1 : a = '1' ∧ ('0' ≤ b ∧ b ≤ '2')
  · rw [if_pos h1]
    dsimp only
    rw [if_pos (Or.inl h1)]
  · rw [if_neg h1]
    by_cases h2 : a = '0' ∧ ('1' ≤ b ∧ b ≤ '9')
    · rw [if_pos h2]
      dsimp only
      rw [if_pos (Or.inr h2)]
    · rw [if_neg h2]
      have hneg : ¬((a = '1' ∧ ('0' ≤ b ∧ b ≤ '2')) ∨
          (a = '0' ∧ ('1' ≤ b ∧ b ≤ '9'))) := by
        rintro (hh | hh)
        exacts [h1 hh, h2 hh]
      rw [if_neg hneg]
      by_cases h3 : '1' ≤ a ∧ a ≤ '9'
      · rw [if_pos h3]
        dsimp only
        rw [parseAfterHour, strpLit, if_neg (isDig_ne_colon hb)]
      · rw [if_neg h3]

/-- Follows the spec's wording (§4.3, §6): the hour component under
12-hour-clock-with-AM-PM semantics. -/
def specHour24 (h12 : Nat) (pm : Bool) : Nat :=
  if pm then (if h12 = 12 then 12 else h12 + 12)
  else (if h12 = 12 then 0 else h12)

/-- Follows the spec's wording: the decimal value of a digit group of
the date string. -/
def digitsVal (l : List Char) : Nat := l.foldl (fun a c => 10 * a + dval c) 0

theorem digitsVal_one (d : Char) : digitsVal [d] = dval d := by
  simp [digitsVal]

theorem digitsVal_two (d e : Char) :
    digitsVal [d, e] = 10 * dval d + dval e := by
  simp [digitsVal]

theorem digitsVal_four (a b c d : Char) :
    digitsVal [a, b, c, d] =
      1000 * dval a + 100 * dval b + 10 * dval c + dval d := by
  simp [digitsVal]
  ring

theorem parseAfterHour_min {mon day year h12 : Nat} {n1 n2 ap : Char}
    (hn1 : isDigCh n1 = true) (hn2 : isDigCh n2 = true)
    (hap : apCl ap = true) :
    parseAfterHour mon day year h12
        (':' :: n1 :: n2 :: ' ' :: ap :: 'M' :: []) =
      if '0' ≤ n1 ∧ n1 ≤ '5' then
        mkDatetime year mon day (specHour24 h12 (ap == 'P'))
          (digitsVal [n1, n2])
      else none := by
  rw [parseAfterHour, strpLit, if_pos rfl]
  dsimp only
  rw [strpMin]
  rw [apCl, decide_eq_true_eq] at hap
  by_cases h1 : '0' ≤ n1 ∧ n1 ≤ '5'
  · rw [if_pos ⟨h1, hn2⟩]
    dsimp only
    have hapns : isSpaceCh ap = false := by
      rcases hap with rfl | rfl <;> decide
    rw [parseAfterMin, strpWs_single hapns]
    dsimp only
    rcases hap with rfl | rfl
    · rw [strpAmPm, if_pos ⟨by decide, by decide⟩]
      dsimp only
      rw [if_pos rfl, if_pos h1, digitsVal_two]
      simp [specHour24]
    · rw [strpAmPm, if_neg (fun hq => absurd hq.1 (by decide)),
          if_pos ⟨by decide, by decide⟩]
      dsimp only
      rw [if_pos rfl, if_pos h1, digitsVal_two]
      simp [specHour24]
  · rw [if_neg (fun hq => h1 hq.1), if_pos hn1]
    dsimp only
    rw [parseAfterMin]
    have hns : isSpaceCh n2 = false := isDig_not_space hn2
    rw [strpWs]
    rw [if_neg (by rw [hns]; exact Bool.false_ne_true)]
    rw [if_neg h1]

theorem parseAfterYear_complete {mon day year : Nat} {hds : List Char}
    {n1 n2 ap : Char} (hhds : Digits12 hds) (hn1 : isDigCh n1 = true)
    (hn2 : isDigCh n2 = true) (hap : apCl ap = true) :
    parseAfterYear mon day year
        (',' :: ' ' :: (hds ++ ':' :: n1 :: n2 :: ' ' :: ap :: 'M' :: [])) =
        none ∨
    parseAfterYear mon day year
        (',' :: ' ' :: (hds ++ ':' :: n1 :: n2 :: ' ' :: ap :: 'M' :: [])) =
      mkDatetime year mon day (specHour24 (digitsVal hds) (ap == 'P'))
        (digitsVal [n1, n2]) := by
  rcases hhds with ⟨a, hae, ha⟩ | ⟨a, b, hae, ha, hb⟩
  · rw [hae]
    simp only [List.cons_append, List.nil_append]
    rw [parseAfterYear_hour1 ha]
    by_cases h4 : '1' ≤ a ∧ a ≤ '9'
    · rw [if_pos h4, parseAfterHour_min hn1 hn2 hap]
      by_cases h5 : '0' ≤ n1 ∧ n1 ≤ '5'
      · rw [if_pos h5, digitsVal_one]
        exact Or.inr rfl
      · rw [if_neg h5]
        exact Or.inl rfl
    · rw [if_neg h4]
      exact Or.inl rfl
  · rw [hae]
    simp only [List.cons_append, List.nil_append]
    rw [parseAfterYear_hour2 ha hb]
    by_cases h4 : (a = '1' ∧ ('0' ≤ b ∧ b ≤ '2')) ∨
        (a = '0' ∧ ('1' ≤ b ∧ b ≤ '9'))
    · rw [if_pos h4, parseAfterHour_min hn1 hn2 hap]
      by_cases h5 : '0' ≤ n1 ∧ n1 ≤ '5'
      · rw [if_pos h5, digitsVal_two, digitsVal_two]
        exact Or.inr rfl
      · rw [if_neg h5]
        exact Or.inl rfl
    · rw [if_neg h4]
      exact Or.inl rfl

theorem parse_eq_mkDatetime_cases {y mo d h mi : Nat} {s : String}
    (hP : parse_naive_local s = mkDatetime y mo d h mi) :
    parse_naive_local s = none ∨
    parse_naive_local s = some ⟨y, mo, d, h, mi⟩ := by
  rw [mkDatetime] at hP
  split_ifs at hP with hcond
  · exact Or.inr hP
  · exact Or.inl hP

/-! ### C2 -/

/-- C2: for every date string matching `DATE_RE`, `parse_naive_local`
either returns a timestamp whose year, month, day, hour and minute are
exactly the string's components under 12-hour-clock-with-AM-PM
semantics, or fails; and the failure is confined to `build_calendar`,
which drops the offending record with a warning and continues with the
rest, so it never escapes to abort the run. -/
theorem parse_regex_reflects_components (s : String)
    (h : matchesDateRe s = true) :
    (parse_naive_local s = none ∧
      ∀ (b : RawRecord) (rest : List RawRecord), b.date_str = s →
        build_calendar (b :: rest) =
          ((build_calendar rest).1,
           (b.date_str, b.title) :: (build_calendar rest).2)) ∨
    (∃ c m, dateComponents s.data = some c ∧
      monthNum [c.m1.toLower, c.m2.toLower, c.m3.toLower] = some m ∧
      parse_naive_local s =
        some { year := digitsVal [c.y1, c.y2, c.y3, c.y4], month := m,
               day := digitsVal c.dds,
               hour := specHour24 (digitsVal c.hds) (c.ap == 'P'),
               minute := digitsVal [c.n1, c.n2] }) := by
  rw [matchesDateRe] at h
  obtain ⟨c, hc⟩ := Option.isSome_iff_exists.mp h
  obtain ⟨hl, hm1, hm2, hm3, hdds, hy1, hy2, hy3, hy4, hhds, hn1, hn2,
          hap⟩ := dateComponents_shape hc
  have hleft : parse_naive_local s = none →
      (parse_naive_local s = none ∧
        ∀ (b : RawRecord) (rest : List RawRecord), b.date_str = s →
          build_calendar (b :: rest) =
            ((build_calendar rest).1,
             (b.date_str, b.title) :: (build_calendar rest).2)) :=
    fun hnone =>
      ⟨hnone, fun b rest hbs =>
        build_cons_of_parse_fail b rest (by rw [hbs]; exact hnone)⟩
  have hP : parse_naive_local s = parseChars s.data := rfl
  rw [hl] at hP
  cases hmn : monthNum [c.m1.toLower, c.m2.toLower, c.m3.toLower] with
  | none =>
      rw [parseChars_month_none hmn] at hP
      exact Or.inl (hleft hP)
  | some m =>
      rw [parseChars_month_some hmn] at hP
      rcases hdds with ⟨d, hde, hd⟩ | ⟨d, e, hde, hd, he⟩
      · rw [hde] at hP
        simp only [List.cons_append, List.nil_append] at hP
        rw [parseAfterMonth_day1 hd] at hP
        by_cases hday : '1' ≤ d ∧ d ≤ '9'
        · rw [if_pos hday] at hP
          rw [parseAfterDay_year hy1 hy2 hy3 hy4] at hP
          rcases @parseAfterYear_complete m (dval d)
              (1000 * dval c.y1 + 100 * dval c.y2 + 10 * dval c.y3 +
                dval c.y4) c.hds c.n1 c.n2 c.ap hhds hn1 hn2 hap with
            haux | haux
          · rw [haux] at hP
            exact Or.inl (hleft hP)
          · rw [haux] at hP
            rcases parse_eq_mkDatetime_cases hP with hP2 | hP2
            · exact Or.inl (hleft hP2)
            · refine Or.inr ⟨c, m, hc, hmn, ?_⟩
              rw [hP2]
              simp only [hde, digitsVal_one, digitsVal_two, digitsVal_four]
        · rw [if_neg hday] at hP
          exact Or.inl (hleft hP)
      · rw [hde] at hP
        simp only [List.cons_append, List.nil_append] at hP
        rw [parseAfterMonth_day2 hd he] at hP
        by_cases hday : (d = '3' ∧ (e = '0' ∨ e = '1')) ∨ (d = '1' ∨ d = '2') ∨
            (d = '0' ∧ ('1' ≤ e ∧ e ≤ '9'))
        · rw [if_pos hday] at hP
          rw [parseAfterDay_year hy1 hy2 hy3 hy4] at hP
          rcases @parseAfterYear_complete m (10 * dval d + dval e)
              (1000 * dval c.y1 + 100 * dval c.y2 + 10 * dval c.y3 +
                dval c.y4) c.hds c.n1 c.n2 c.ap hhds hn1 hn2 hap with
            haux | haux
          · rw [haux] at hP
            exact Or.inl (hleft hP)
          · rw [haux] at hP
            rcases parse_eq_mkDatetime_cases hP with hP2 | hP2
            · exact Or.inl (hleft hP2)
            · refine Or.inr ⟨c, m, hc, hmn, ?_⟩
              rw [hP2]
              simp only [hde, digitsVal_one, digitsVal_two, digitsVal_four]
        · rw [if_neg hday] at hP
          exact Or.inl (hleft hP)

/-- C2 instantiated at the spec's example date string. -/
theorem parse_regex_reflects_components_witness :
    matchesDateRe "Oct 23, 2025, 8:30 PM" = true ∧
    ((parse_naive_local "Oct 23, 2025, 8:30 PM" = none ∧
       ∀ (b : RawRecord) (rest : List RawRecord),
         b.date_str = "Oct 23, 2025, 8:30 PM" →
         build_calendar (b :: rest) =
           ((build_calendar rest).1,
            (b.date_str, b.title) :: (build_calendar rest).2)) ∨
     (∃ c m, dateComponents "Oct 23, 2025, 8:30 PM".data = some c ∧
       monthNum [c.m1.toLower, c.m2.toLower, c.m3.toLower] = some m ∧
       parse_naive_local "Oct 23, 2025, 8:30 PM" =
         some { year := digitsVal [c.y1, c.y2, c.y3, c.y4], month := m,
                day := digitsVal c.dds,
                hour := specHour24 (digitsVal c.hds) (c.ap == 'P'),
                minute := digitsVal [c.n1, c.n2] })) :=
  ⟨by decide, parse_regex_reflects_components "Oct 23, 2025, 8:30 PM"
    (by decide)⟩
